import Mathlib

set_option maxRecDepth 8192

/-!
Shallow embedding of the logsense core pipeline
(internal/model ring buffer, internal/detect heuristics,
internal/parse parser strategies, internal/filter evaluator),
translated from the Go sources, together with theorems settling
the frozen specification claims.

Machine integers: the Go counters (`total`, `dropped` are `uint64`,
`cap`/`start`/`size` are `int`) are modelled as `Nat`; they only ever
increase by one per push, so 64-bit wrap-around is unreachable for any
feasible execution and is not modelled.
-/

/-- Go dynamic values (`any`) as produced by `encoding/json` unmarshalling
into `map[string]any`, plus `int` values produced by `strconv.Atoi` in the
regex parser. JSON numbers are kept as their source text (Go stores them
as `float64`; the claims never compute with them). -/
inductive GoVal where
  | str : String → GoVal
  | num : String → GoVal
  | int : Int → GoVal
  | bool : Bool → GoVal
  | null : GoVal
  | obj : List (String × GoVal) → GoVal

instance : Inhabited GoVal := ⟨GoVal.null⟩

/-- Model of Go `time.Time` restricted to what the core needs: a parsed
timestamp is identified by its textual rendering. -/
structure GoTime where
  iso : String
deriving DecidableEq

/-- Go map `map[string]any`, represented as an association list with
replace-on-insert semantics (so keys stay unique, as in a Go map). -/
abbrev Fields := List (String × GoVal)

/-- `model.LogEntry` from the source (`Raw`, `Fields`, `Timestamp`,
`Level`, `Source`, `FormatName`, `SchemaVer`). -/
structure LogEntry where
  raw : String
  fields : Fields
  timestamp : Option GoTime
  level : String
  source : String
  formatName : String
  schemaVer : String

instance : Inhabited LogEntry :=
  ⟨{ raw := "", fields := [], timestamp := none, level := "", source := "",
     formatName := "", schemaVer := "" }⟩

/-- Go map lookup `v, ok := m[k]` on the association-list representation. -/
def fieldsLookup : Fields → String → Option GoVal
  | [], _ => none
  | (k, v) :: rest, q => if k = q then some v else fieldsLookup rest q

/-- Go map assignment `m[k] = v`: replace the binding if the key exists,
otherwise add it. -/
def fieldsInsert : Fields → String → GoVal → Fields
  | [], k, v => [(k, v)]
  | (k0, v0) :: rest, k, v =>
      if k0 = k then (k0, v) :: rest else (k0, v0) :: fieldsInsert rest k v

/-- `for k, v := range src { dst[k] = v }`. -/
def insertAll (base : Fields) (l : Fields) : Fields :=
  l.foldl (fun acc kv => fieldsInsert acc kv.1 kv.2) base

/-- The keys of an association list are pairwise distinct (always true for
lists built with `fieldsInsert`, mirroring a Go map). -/
def keysNodup : Fields → Bool
  | [] => true
  | (k, _) :: rest => (fieldsLookup rest k).isNone && keysNodup rest

/-! ## Ring buffer (`model.Ring`) -/

/-- `model.Ring`: fixed array, capacity, start cursor, size, and the
ingested/dropped counters. -/
structure RingBuf where
  buf : List LogEntry
  cap : Nat
  start : Nat
  size : Nat
  total : Nat
  dropped : Nat

/-- `model.NewRing(capacity)`. -/
def NewRing (capacity : Nat) : RingBuf :=
  { buf := List.replicate capacity default, cap := capacity, start := 0,
    size := 0, total := 0, dropped := 0 }

/-- `Ring.Push`. A Go slice index out of range is a runtime panic; the
embedding returns `none` exactly when the indexed slot does not exist
(which for `NewRing(0)` is every call, since `size < cap` is false and
`buf[start]` indexes an empty backing array). -/
def RingBuf.push? (r : RingBuf) (e : LogEntry) : Option RingBuf :=
  if r.size < r.cap then
    let i := (r.start + r.size) % r.cap
    if i < r.buf.length then
      some { r with buf := r.buf.set i e, size := r.size + 1, total := r.total + 1 }
    else none
  else
    if r.start < r.buf.length then
      some { r with
              buf := r.buf.set r.start e
              start := (r.start + 1) % r.cap
              dropped := r.dropped + 1
              total := r.total + 1 }
    else none

/-- `Ring.Snapshot`: the live entries oldest first, plus the two counters. -/
def RingBuf.snapshot (r : RingBuf) : List LogEntry × Nat × Nat :=
  ((List.range r.size).map (fun i => r.buf.getD ((r.start + i) % r.cap) default),
   r.total, r.dropped)

/-- Push a whole sequence of entries in order. -/
def pushAll? (r : RingBuf) : List LogEntry → Option RingBuf
  | [] => some r
  | e :: rest =>
      match r.push? e with
      | some r1 => pushAll? r1 rest
      | none => none

/-- Modelled from the spec: `Ring.Resize` is called by the UI pipeline
(`m.ring.Resize(n)` in pipeline.go) but its implementation is not among
the provided model sources; per spec section 4.4 it "reallocates preserving
the most recent min(size, newCapacity) entries" and "does not reset
counters". -/
def RingBuf.resize (r : RingBuf) (newCapacity : Nat) : RingBuf :=
  let live := (r.snapshot).1
  let kept := min r.size newCapacity
  let keptEntries := live.drop (live.length - kept)
  { buf := keptEntries ++ List.replicate (newCapacity - kept) default,
    cap := newCapacity, start := 0, size := kept,
    total := r.total, dropped := r.dropped }

/-- The last `n` elements of a list, in order. -/
def takeLast (n : Nat) (l : List α) : List α := l.drop (l.length - n)

/-- Abstraction relation: ring `r` holds exactly the entries of `v`,
oldest first, in its circular buffer. -/
def Represents (r : RingBuf) (v : List LogEntry) : Prop :=
  r.buf.length = r.cap ∧ r.size = v.length ∧ v.length ≤ r.cap ∧
  r.start < r.cap ∧
  ∀ i, i < v.length →
    r.buf.getD ((r.start + i) % r.cap) default = v.getD i default

/-- Structural well-formedness of a ring (backing array sized to the
capacity, cursor in range, size bounded). -/
def RingWF (r : RingBuf) : Prop :=
  r.buf.length = r.cap ∧ r.start < r.cap ∧ r.size ≤ r.cap

/-! ## Format classifier (`internal/detect`, `Heuristics`) -/

/-- `unicode.IsSpace` as used by `strings.TrimSpace`, restricted to the
ASCII/Latin-1 range (the claims only involve such input). -/
def isGoSpace (c : Char) : Bool :=
  c = ' ' || c = '\t' || c = '\n' || c = '\x0b' || c = '\x0c' || c = '\r' ||
  c = '\u0085' || c = '\u00A0'

/-- `strings.TrimSpace`. -/
def goTrim (s : String) : String :=
  String.mk (((s.data.dropWhile isGoSpace).reverse.dropWhile isGoSpace).reverse)

/-- `strings.ToUpper`, ASCII model. -/
def goToUpper (s : String) : String := String.mk (s.data.map Char.toUpper)

/-- `strings.ToLower`, ASCII model. -/
def goToLower (s : String) : String := String.mk (s.data.map Char.toLower)

/-- `strings.HasPrefix(s, c)` for a single-character pattern. -/
def firstIs (s : String) (c : Char) : Bool :=
  match s.data with
  | x :: _ => x = c
  | [] => false

/-- `strings.HasSuffix(s, c)` for a single-character pattern. -/
def lastIs (s : String) (c : Char) : Bool :=
  match s.data.getLast? with
  | some x => x = c
  | none => false

/-- `strings.Contains(s, "=")`. -/
def containsEq (s : String) : Bool := s.data.contains '='

/-- `[a-zA-Z_]`, the start of an identifier in the `reLogfmtKV` pattern. -/
def isIdentStart (c : Char) : Bool := c.isAlpha || c = '_'

/-- `[a-zA-Z0-9_]`, the continuation class in the `reLogfmtKV` pattern. -/
def isIdentChar (c : Char) : Bool := c.isAlphanum || c = '_'

/-- Matcher for `reLogfmtKV = [a-zA-Z_][a-zA-Z0-9_]*=` (unanchored):
scan the characters tracking whether the position ends an identifier run
that began with an identifier-start character; a match is an `=` right
after such a run. -/
def logfmtScan : List Char → Bool → Bool
  | [], _ => false
  | c :: rest, run =>
      if c = '=' then (run || logfmtScan rest false)
      else if isIdentStart c then logfmtScan rest true
      else if run && isIdentChar c then logfmtScan rest true
      else logfmtScan rest false

/-- `\s` of Go regexp: `[\t\n\f\r ]`. -/
def isRegexSpace (c : Char) : Bool :=
  c = '\t' || c = '\n' || c = '\x0c' || c = '\r' || c = ' '

/-- Consume one or more characters satisfying `p` (regex `X+` where the
following pattern element cannot match `X`, so greedy matching needs no
backtracking). -/
def chomp1 (p : Char → Bool) : List Char → Option (List Char)
  | [] => none
  | c :: rest => if p c then some (rest.dropWhile p) else none

/-- Consume one literal character. -/
def expectChar (c : Char) : List Char → Option (List Char)
  | [] => none
  | x :: rest => if x = c then some rest else none

/-- Consume exactly `n` digits (regex `\d{n}`). -/
def expectDigits : Nat → List Char → Option (List Char)
  | 0, cs => some cs
  | _ + 1, [] => none
  | n + 1, c :: rest => if c.isDigit then expectDigits n rest else none

/-- Regex fragment `\S+ \S+ \S+ ` of `reApacheCombined`. -/
def apacheSeg1 (cs : List Char) : Option (List Char) :=
  (chomp1 (fun c => !(isRegexSpace c)) cs).bind fun cs1 =>
  (expectChar ' ' cs1).bind fun cs2 =>
  (chomp1 (fun c => !(isRegexSpace c)) cs2).bind fun cs3 =>
  (expectChar ' ' cs3).bind fun cs4 =>
  (chomp1 (fun c => !(isRegexSpace c)) cs4).bind fun cs5 =>
  expectChar ' ' cs5

/-- Regex fragment `\[[^\x5d]+\] ` of `reApacheCombined`. -/
def apacheSeg2 (cs : List Char) : Option (List Char) :=
  (expectChar '[' cs).bind fun cs1 =>
  (chomp1 (fun c => c != ']') cs1).bind fun cs2 =>
  (expectChar ']' cs2).bind fun cs3 =>
  expectChar ' ' cs3

/-- Regex fragment `"[A-Z]+ [^\s]+ [^"]+" ` of `reApacheCombined`. -/
def apacheSeg3 (cs : List Char) : Option (List Char) :=
  (expectChar '"' cs).bind fun cs1 =>
  (chomp1 Char.isUpper cs1).bind fun cs2 =>
  (expectChar ' ' cs2).bind fun cs3 =>
  (chomp1 (fun c => !(isRegexSpace c)) cs3).bind fun cs4 =>
  (expectChar ' ' cs4).bind fun cs5 =>
  (chomp1 (fun c => c != '"') cs5).bind fun cs6 =>
  (expectChar '"' cs6).bind fun cs7 =>
  expectChar ' ' cs7

/-- Regex fragment `\d\x7b3\x7d \d+ ` of `reApacheCombined`. -/
def apacheSeg4 (cs : List Char) : Option (List Char) :=
  (expectDigits 3 cs).bind fun cs1 =>
  (expectChar ' ' cs1).bind fun cs2 =>
  (chomp1 Char.isDigit cs2).bind fun cs3 =>
  expectChar ' ' cs3

/-- Regex fragment `"[^"]*"`. -/
def quotedAny (cs : List Char) : Option (List Char) :=
  (expectChar '"' cs).bind fun cs1 =>
  expectChar '"' (cs1.dropWhile (fun c => c != '"'))

/-- Matcher for `reApacheCombined` (anchored prefix match; every
repetition is followed by a delimiter its class excludes, so greedy
consumption is exact). -/
def isApacheLine (s : String) : Bool :=
  ((apacheSeg1 s.data).bind fun cs1 =>
   (apacheSeg2 cs1).bind fun cs2 =>
   (apacheSeg3 cs2).bind fun cs3 =>
   (apacheSeg4 cs3).bind fun cs4 =>
   (quotedAny cs4).bind fun cs5 =>
   (expectChar ' ' cs5).bind fun cs6 =>
   quotedAny cs6).isSome

/-- Regex fragment `<\d+>1 ` of `reSyslogRFC5424`. -/
def syslogSeg1 (cs : List Char) : Option (List Char) :=
  (expectChar '<' cs).bind fun cs1 =>
  (chomp1 Char.isDigit cs1).bind fun cs2 =>
  (expectChar '>' cs2).bind fun cs3 =>
  (expectChar '1' cs3).bind fun cs4 =>
  expectChar ' ' cs4

/-- Regex fragment `\d\x7b4\x7d-\d\x7b2\x7d-\d\x7b2\x7dT` of `reSyslogRFC5424`. -/
def syslogSeg2 (cs : List Char) : Option (List Char) :=
  (expectDigits 4 cs).bind fun cs1 =>
  (expectChar '-' cs1).bind fun cs2 =>
  (expectDigits 2 cs2).bind fun cs3 =>
  (expectChar '-' cs3).bind fun cs4 =>
  (expectDigits 2 cs4).bind fun cs5 =>
  expectChar 'T' cs5

/-- Regex fragment `\d\x7b2\x7d:\d\x7b2\x7d:\d\x7b2\x7d` of `reSyslogRFC5424`. -/
def syslogSeg3 (cs : List Char) : Option (List Char) :=
  (expectDigits 2 cs).bind fun cs1 =>
  (expectChar ':' cs1).bind fun cs2 =>
  (expectDigits 2 cs2).bind fun cs3 =>
  (expectChar ':' cs3).bind fun cs4 =>
  expectDigits 2 cs4

/-- Matcher for `reSyslogRFC5424` (anchored prefix match). -/
def isSyslogLine (s : String) : Bool :=
  ((syslogSeg1 s.data).bind fun cs1 =>
   (syslogSeg2 cs1).bind fun cs2 =>
   syslogSeg3 cs2).isSome

/-- The five counters of the `Heuristics` sampling loop. -/
structure HeurCount where
  lines : Nat
  json : Nat
  logfmt : Nat
  apache : Nat
  syslog : Nat

/-- One iteration of the `for _, l := range sample` loop in `Heuristics`. -/
def heurStep (acc : HeurCount) (l : String) : HeurCount :=
  let s := goTrim l
  if s = "" then acc
  else
    { lines := acc.lines + 1
      json := acc.json + (if firstIs s '{' && lastIs s '}' then 1 else 0)
      logfmt := acc.logfmt + (if logfmtScan s.data false && containsEq s then 1 else 0)
      apache := acc.apache + (if isApacheLine s then 1 else 0)
      syslog := acc.syslog + (if isSyslogLine s then 1 else 0) }

/-- The counter values after the `Heuristics` sampling loop. -/
def heurCounts (sample : List String) : HeurCount :=
  sample.foldl heurStep { lines := 0, json := 0, logfmt := 0, apache := 0, syslog := 0 }

/-- `model.FieldDef`. -/
structure FieldDef where
  name : String
  type : String
  description : String
  pathOrGroup : String
deriving DecidableEq

/-- `model.Schema`. `LevelMapping` (a Go `map[string]string`) is an
association list; `Confidence` (`float64`) is modelled as an exact
rational, which agrees with `float64` on every value the code produces
that a claim mentions. -/
structure Schema where
  formatName : String
  probableSources : List String
  parseStrategy : String
  timeLayout : String
  levelMapping : List (String × String)
  regexPattern : String
  fields : List FieldDef
  confidence : Rat
  sampleParsedRow : Fields

/-- `time.RFC3339`. -/
def rfc3339Layout : String := "2006-01-02T15:04:05Z07:00"

/-- `detect.jsonSchema()`. -/
def jsonSchema : Schema :=
  { formatName := "json_lines", probableSources := [], parseStrategy := "json",
    timeLayout := rfc3339Layout,
    levelMapping := [("warn", "WARN"), ("warning", "WARN"), ("info", "INFO"),
      ("error", "ERROR"), ("debug", "DEBUG"), ("fatal", "FATAL"), ("trace", "TRACE")],
    regexPattern := "",
    fields := [⟨"ts", "string", "timestamp", ".ts"⟩, ⟨"time", "string", "timestamp", ".time"⟩,
      ⟨"level", "string", "level", ".level"⟩, ⟨"msg", "string", "message", ".msg"⟩,
      ⟨"message", "string", "message", ".message"⟩],
    confidence := 0.8, sampleParsedRow := [] }

/-- `detect.logfmtSchema()`. -/
def logfmtSchema : Schema :=
  { formatName := "logfmt", probableSources := [], parseStrategy := "logfmt",
    timeLayout := rfc3339Layout,
    levelMapping := [("warn", "WARN"), ("warning", "WARN"), ("info", "INFO"),
      ("error", "ERROR"), ("debug", "DEBUG"), ("fatal", "FATAL"), ("trace", "TRACE")],
    regexPattern := "",
    fields := [⟨"time", "string", "time", "time"⟩, ⟨"level", "string", "level", "level"⟩,
      ⟨"msg", "string", "message", "msg"⟩],
    confidence := 0.6, sampleParsedRow := [] }

/-- `detect.apacheSchema()`. -/
def apacheSchema : Schema :=
  { formatName := "apache_combined", probableSources := [], parseStrategy := "regex",
    timeLayout := "02/Jan/2006:15:04:05 -0700",
    levelMapping := [],
    regexPattern := "^(?P<ip>\\S+) \\S+ \\S+ \\[(?P<ts>[^\\]]+)\\] \"(?P<method>[A-Z]+) (?P<path>[^\\s]+) [^\"]+\" (?P<status>\\d{3}) (?P<size>\\d+) \"(?P<ref>[^\"]*)\" \"(?P<ua>[^\"]*)\"",
    fields := [⟨"ts", "string", "timestamp", "ts"⟩, ⟨"status", "int", "status", "status"⟩,
      ⟨"method", "string", "method", "method"⟩, ⟨"path", "string", "path", "path"⟩,
      ⟨"ip", "string", "client ip", "ip"⟩],
    confidence := 0.6, sampleParsedRow := [] }

/-- `detect.syslogSchema()`. -/
def syslogSchema : Schema :=
  { formatName := "syslog_rfc5424", probableSources := [], parseStrategy := "regex",
    timeLayout := rfc3339Layout,
    levelMapping := [],
    regexPattern := "^<(?P<pri>\\d+)>1 (?P<ts>\\d{4}-\\d{2}-\\d{2}T\\d{2}:\\d{2}:\\d{2}(?:\\.\\d+)?(?:Z|[+-]\\d{2}:?\\d{2})) (?P<host>\\S+) (?P<app>\\S+) \\S+ \\S+ - (?P<msg>.*)$",
    fields := [⟨"ts", "string", "timestamp", "ts"⟩, ⟨"app", "string", "app", "app"⟩,
      ⟨"msg", "string", "message", "msg"⟩],
    confidence := 0.6, sampleParsedRow := [] }

/-- `detect.unknownSchema()` (all other fields are Go zero values). -/
def unknownSchema : Schema :=
  { formatName := "unknown", probableSources := [], parseStrategy := "regex",
    timeLayout := "", levelMapping := [],
    regexPattern := "^(?P<msg>.*)$",
    fields := [⟨"msg", "string", "message", "msg"⟩],
    confidence := 0, sampleParsedRow := [] }

/-- `detect.Guess`. -/
structure Guess where
  schema : Schema
  confidence : Rat

/-- `detect.conf(lines, hits)`. -/
def conf (lines hits : Nat) : Rat :=
  if lines = 0 then 0 else (hits : Rat) / (lines : Rat)

/-- `detect.Heuristics(sample)`: count per-format hits over the non-blank
sample lines, then select by the if-chain of the source. -/
def Heuristics (sample : List String) : Guess :=
  let c := heurCounts sample
  if c.json > c.logfmt ∧ c.json > c.apache ∧ c.json > c.syslog ∧ c.json ≥ c.lines / 2 then
    { schema := jsonSchema, confidence := conf c.lines c.json }
  else if c.logfmt ≥ c.apache ∧ c.logfmt ≥ c.syslog ∧ c.logfmt ≥ c.lines / 2 then
    { schema := logfmtSchema, confidence := conf c.lines c.logfmt }
  else if c.apache ≥ c.syslog ∧ c.apache > 0 then
    { schema := apacheSchema, confidence := conf c.lines c.apache }
  else if c.syslog > 0 then
    { schema := syslogSchema, confidence := conf c.lines c.syslog }
  else
    { schema := unknownSchema, confidence := 0 }

/-! ## Parser strategies (`internal/parse`) -/

/-- `parse.normalizeLevel(s, lvl)`. -/
def normalizeLevel (s : Schema) (lvl : String) : String :=
  let l := goToUpper (goTrim lvl)
  match s.levelMapping.find? (fun kv => goToUpper kv.1 = l) with
  | some kv => goToUpper kv.2
  | none =>
      if l = "TRACE" then "TRACE"
      else if l = "DEBUG" then "DEBUG"
      else if l = "INFO" then "INFO"
      else if l = "WARN" ∨ l = "WARNING" then "WARN"
      else if l = "ERROR" ∨ l = "ERR" then "ERROR"
      else if l = "FATAL" ∨ l = "CRITICAL" then "FATAL"
      else l

/-- `parse.getStringPaths(m, keys)`: the first key that is present with a
string value; a present non-string value falls through to the next key. -/
def getStringPaths (m : Fields) : List String → String
  | [] => ""
  | k :: ks =>
      match fieldsLookup m k with
      | some (GoVal.str s) => s
      | _ => getStringPaths m ks

/-- JSON string body (after the opening quote), accumulating characters.
Model of the `encoding/json` string scanner supporting the escapes the
claims exercise; exotic escapes make the model reject, and no claim
depends on such input. -/
def parseJsonStringAux : List Char → List Char → Option (List Char × List Char)
  | _, [] => none
  | acc, c :: rest =>
      if c = '"' then some (acc.reverse, rest)
      else if c = '\\' then
        match rest with
        | [] => none
        | e :: rest2 =>
            if e = '"' then parseJsonStringAux ('"' :: acc) rest2
            else if e = '\\' then parseJsonStringAux ('\\' :: acc) rest2
            else if e = '/' then parseJsonStringAux ('/' :: acc) rest2
            else if e = 'n' then parseJsonStringAux ('\n' :: acc) rest2
            else if e = 't' then parseJsonStringAux ('\t' :: acc) rest2
            else if e = 'r' then parseJsonStringAux ('\r' :: acc) rest2
            else none
      else parseJsonStringAux (c :: acc) rest

/-- Characters that can appear in a JSON number literal. -/
def isNumChar (c : Char) : Bool :=
  c.isDigit || c = '-' || c = '+' || c = '.' || c = 'e' || c = 'E'

/-- JSON number literal, kept as text (Go decodes to `float64`; no claim
computes with numbers). -/
def parseJsonNumber (cs : List Char) : Option (String × List Char) :=
  let digits := cs.takeWhile isNumChar
  if digits.isEmpty then none else some (String.mk digits, cs.drop digits.length)

/-- JSON structural whitespace. -/
def isJsonWsChar (c : Char) : Bool := c = ' ' || c = '\t' || c = '\n' || c = '\r'

/-- JSON whitespace skipping. -/
def skipJsonWs (cs : List Char) : List Char := cs.dropWhile isJsonWsChar

mutual

/-- One JSON value. Model of the `encoding/json` grammar for objects,
strings, booleans, null and numbers (arrays are rejected by the model;
no claim involves them). `fuel` dominates the nesting depth. -/
def parseJsonValue : Nat → List Char → Option (GoVal × List Char)
  | 0, _ => none
  | fuel + 1, cs =>
      match skipJsonWs cs with
      | [] => none
      | c :: rest =>
          if c = '"' then
            match parseJsonStringAux [] rest with
            | some (chars, rest2) => some (GoVal.str (String.mk chars), rest2)
            | none => none
          else if c = '{' then
            match skipJsonWs rest with
            | '}' :: rest2 => some (GoVal.obj [], rest2)
            | _ =>
                match parseJsonMembers fuel (skipJsonWs rest) [] with
                | some (fields, rest2) => some (GoVal.obj fields, rest2)
                | none => none
          else if c = 't' then
            match rest with
            | 'r' :: 'u' :: 'e' :: rest2 => some (GoVal.bool true, rest2)
            | _ => none
          else if c = 'f' then
            match rest with
            | 'a' :: 'l' :: 's' :: 'e' :: rest2 => some (GoVal.bool false, rest2)
            | _ => none
          else if c = 'n' then
            match rest with
            | 'u' :: 'l' :: 'l' :: rest2 => some (GoVal.null, rest2)
            | _ => none
          else if c.isDigit || c = '-' then
            match parseJsonNumber (c :: rest) with
            | some (txt, rest2) => some (GoVal.num txt, rest2)
            | none => none
          else none
termination_by structural fuel => fuel

/-- The members of a JSON object after its opening brace (non-empty case),
inserted into an association list exactly as `encoding/json` fills a Go
map (later duplicate keys overwrite earlier ones). -/
def parseJsonMembers : Nat → List Char → Fields → Option (Fields × List Char)
  | 0, _, _ => none
  | fuel + 1, cs, acc =>
      match skipJsonWs cs with
      | '"' :: rest =>
          match parseJsonStringAux [] rest with
          | some (keyChars, rest2) =>
              match skipJsonWs rest2 with
              | ':' :: rest3 =>
                  match parseJsonValue fuel rest3 with
                  | some (v, rest4) =>
                      let acc2 := fieldsInsert acc (String.mk keyChars) v
                      match skipJsonWs rest4 with
                      | ',' :: rest5 => parseJsonMembers fuel rest5 acc2
                      | '}' :: rest5 => some (acc2, rest5)
                      | _ => none
                  | none => none
              | _ => none
          | none => none
      | _ => none
termination_by structural fuel => fuel

end

/-- `json.Unmarshal([]byte(line), &m)` for `m : map[string]any`:
the whole input must be a single JSON object (with only whitespace
around it), otherwise the map stays nil (modelled as `none`);
`encoding/json` validates the full input before decoding, so trailing
garbage also leaves the map nil. -/
def jsonUnmarshal (line : String) : Option Fields :=
  match parseJsonValue (line.length + 2) line.data with
  | some (GoVal.obj fields, rest) =>
      if skipJsonWs rest = [] then some fields else none
  | _ => none

/-- The `for _, key := range innerKeys` loop of `JSONParser.Parse`: the
first of `log`/`msg`/`message` whose value is a string that trims to a
brace-wrapped text and unmarshals as a JSON object; any failed check
falls through to the next key. -/
def findInnerPayload (m : Fields) : List String → Option Fields
  | [] => none
  | k :: ks =>
      match fieldsLookup m k with
      | some (GoVal.str s) =>
          let t := goTrim s
          if firstIs t '{' && lastIs t '}' then
            match jsonUnmarshal t with
            | some inner => some inner
            | none => findInnerPayload m ks
          else findInnerPayload m ks
      | _ => findInnerPayload m ks

/-- `JSONParser.Parse(line, source)`. `pt` models
`time.Parse(p.layout, s)` for the parser's resolved layout: `some t` on
success, `none` on error. -/
def jsonParse (schema : Schema) (pt : String → Option GoTime)
    (line source : String) : LogEntry :=
  let m := (jsonUnmarshal line).getD []
  let e0 : LogEntry :=
    { raw := line, fields := m, timestamp := none, level := "",
      source := source, formatName := schema.formatName, schemaVer := "" }
  let afterInner : LogEntry :=
    match findInnerPayload m ["log", "msg", "message"] with
    | some inner =>
        let fields1 := insertAll e0.fields inner
        let ts1 : Option GoTime :=
          match e0.timestamp with
          | none =>
              let its := getStringPaths inner ["ts", "time", "timestamp"]
              if its ≠ "" then
                match pt its with
                | some t => some t
                | none => none
              else none
          | some t => some t
        let lvl1 : String :=
          if e0.level = "" then
            let ilvl := goToUpper (getStringPaths inner ["level", "lvl", "severity"])
            if ilvl ≠ "" then normalizeLevel schema ilvl else ""
          else e0.level
        { e0 with fields := fields1, timestamp := ts1, level := lvl1 }
    | none => e0
  let ts := getStringPaths m ["ts", "time", "timestamp"]
  let e1 :=
    if ts ≠ "" then
      match pt ts with
      | some t => { afterInner with timestamp := some t }
      | none => afterInner
    else afterInner
  let lvl := goToUpper (getStringPaths m ["level", "lvl", "severity"])
  if lvl ≠ "" then { e1 with level := normalizeLevel schema lvl } else e1

/-- Go `map[string]string`. -/
abbrev StrMap := List (String × String)

/-- Lookup in a `map[string]string`. -/
def strLookup : StrMap → String → Option String
  | [], _ => none
  | (k, v) :: rest, q => if k = q then some v else strLookup rest q

/-- Assignment `m[k] = v` in a `map[string]string`. -/
def strInsert : StrMap → String → String → StrMap
  | [], k, v => [(k, v)]
  | (k0, v0) :: rest, k, v =>
      if k0 = k then (k0, v) :: rest else (k0, v0) :: strInsert rest k v

/-- The character loop of `parse.splitLogfmt` (state: current token,
quoting flag, pending key, result map). Go iterates bytes; the model
iterates characters, which agrees on ASCII input. -/
def splitLogfmtAux : List Char → String → Bool → String → StrMap → StrMap
  | [], cur, _, key, res => if key ≠ "" then strInsert res key cur else res
  | c :: rest, cur, inQuote, key, res =>
      if c = '"' then splitLogfmtAux rest cur (!inQuote) key res
      else if !inQuote && (c = ' ' || c = '\t') then
        if key ≠ "" then splitLogfmtAux rest "" inQuote "" (strInsert res key cur)
        else splitLogfmtAux rest cur inQuote key res
      else if !inQuote && c = '=' then splitLogfmtAux rest "" inQuote cur res
      else splitLogfmtAux rest (cur.push c) inQuote key res

/-- `parse.splitLogfmt(s)`. -/
def splitLogfmt (s : String) : StrMap := splitLogfmtAux s.data "" false "" []

/-- `parse.pick(m, keys...)`: the value of the first present key
(even if the value is the empty string). -/
def pick (m : StrMap) : List String → String
  | [] => ""
  | k :: ks =>
      match strLookup m k with
      | some v => v
      | none => pick m ks

/-- `LogfmtParser.Parse(line, source)`. -/
def logfmtParse (schema : Schema) (pt : String → Option GoTime)
    (line source : String) : LogEntry :=
  let parts := splitLogfmt line
  let e0 : LogEntry :=
    { raw := line, fields := parts.map (fun kv => (kv.1, GoVal.str kv.2)),
      timestamp := none, level := "", source := source,
      formatName := schema.formatName, schemaVer := "" }
  let ts := pick parts ["ts", "time", "timestamp"]
  let e1 :=
    if ts ≠ "" then
      match pt ts with
      | some t => { e0 with timestamp := some t }
      | none => e0
    else e0
  let lvl := goToUpper (pick parts ["level", "lvl", "severity"])
  if lvl ≠ "" then { e1 with level := normalizeLevel schema lvl } else e1

/-- Digit run to a natural number. -/
def digitsToNat (ds : List Char) : Nat :=
  ds.foldl (fun a c => a * 10 + (c.toNat - '0'.toNat)) 0

/-- `strconv.Atoi`: optional sign then one or more digits (64-bit range
overflow is not modelled; no claim involves such values). -/
def goAtoi (s : String) : Option Int :=
  match s.data with
  | [] => none
  | '-' :: ds =>
      if !ds.isEmpty && ds.all Char.isDigit then some (-(digitsToNat ds : Int)) else none
  | '+' :: ds =>
      if !ds.isEmpty && ds.all Char.isDigit then some ((digitsToNat ds : Int)) else none
  | ds =>
      if ds.all Char.isDigit then some ((digitsToNat ds : Int)) else none

/-- The body of the `for i, name := range names` loop of
`RegexParser.Parse` for one named group `(name, value)`: record the
field, then the timestamp / level / status special cases. -/
def regexGroupStep (schema : Schema) (pt : String → Option GoTime)
    (e : LogEntry) (nv : String × String) : LogEntry :=
  let name := nv.1
  let val := nv.2
  let e1 := { e with fields := fieldsInsert e.fields name (GoVal.str val) }
  let e2 :=
    if name = "ts" ∨ name = "time" ∨ name = "timestamp" then
      match pt val with
      | some t => { e1 with timestamp := some t }
      | none => e1
    else e1
  let e3 :=
    if name = "level" ∨ name = "lvl" ∨ name = "severity" then
      { e2 with level := normalizeLevel schema (goToUpper val) }
    else e2
  if name = "status" then
    match goAtoi val with
    | some n => { e3 with fields := fieldsInsert e3.fields name (GoVal.int n) }
    | none => e3
  else e3

/-- `RegexParser.Parse(line, source)`. The compiled regex (`p.re`) is
modelled by an oracle: `none` when compilation failed, otherwise a
function giving the named submatches `(name, value)` in group order for
a matching line and `none` for a non-matching one. -/
def regexParse (schema : Schema) (pt : String → Option GoTime)
    (re : Option (String → Option (List (String × String))))
    (line source : String) : LogEntry :=
  let e0 : LogEntry :=
    { raw := line, fields := [], timestamp := none, level := "",
      source := source, formatName := schema.formatName, schemaVer := "" }
  match re with
  | none => { e0 with fields := [("msg", GoVal.str line)] }
  | some matchFn =>
      match matchFn line with
      | none => { e0 with fields := [("msg", GoVal.str line)] }
      | some groups => groups.foldl (regexGroupStep schema pt) e0

/-! ## Filter evaluator (`internal/filter`) -/

/-- `filter.Criteria`. `Levels` is a Go `map[string]bool` (association
list with default `false`). -/
structure Criteria where
  query : String
  useRegex : Bool
  levels : List (String × Bool)
  expr : String
  field : String

/-- Lookup in a `map[string]bool` (absent keys read as `false`). -/
def boolMapGet : List (String × Bool) → String → Bool
  | [], _ => false
  | (k, b) :: rest, q => if k = q then b else boolMapGet rest q

/-- `filter.Evaluator`: the compiled regex and the compiled govaluate
expression are external-library artifacts, modelled as oracles — the
regex as a match predicate, the expression as an evaluation function
returning a dynamic value or an error (an expression referencing a
non-existent parameter evaluates to an error). -/
structure Evaluator where
  re : Option (String → Bool)
  expr : Option (Fields → Except String GoVal)

mutual

/-- `json.Marshal` rendering of a dynamic value (string escaping elided;
used only to stringify non-string field values for substring search,
which no claim computes with). -/
def jsonMarshal : GoVal → String
  | GoVal.str s => "\"" ++ s ++ "\""
  | GoVal.num t => t
  | GoVal.int n => toString n
  | GoVal.bool b => if b then "true" else "false"
  | GoVal.null => "null"
  | GoVal.obj fields => "\x7b" ++ jsonMarshalFields fields ++ "\x7d"

/-- Members of an object rendering. -/
def jsonMarshalFields : List (String × GoVal) → String
  | [] => ""
  | (k, v) :: rest =>
      if rest.isEmpty then "\"" ++ k ++ "\":" ++ jsonMarshal v
      else "\"" ++ k ++ "\":" ++ jsonMarshal v ++ "," ++ jsonMarshalFields rest

end

/-- Prefix test on character lists. -/
def listStarts : List Char → List Char → Bool
  | [], _ => true
  | _ :: _, [] => false
  | a :: as, b :: bs => a = b && listStarts as bs

/-- Substring containment on character lists. -/
def listContainsSub (needle : List Char) : List Char → Bool
  | [] => needle.isEmpty
  | c :: rest => listStarts needle (c :: rest) || listContainsSub needle rest

/-- `strings.Contains(hay, needle)`. -/
def strContains (hay needle : String) : Bool :=
  listContainsSub needle.data hay.data

/-- The query step of `Evaluator.Match`: select the text (raw, or the
scoped field rendered as a string), then regex or case-insensitive
substring. -/
def queryPass (ev : Evaluator) (entry : LogEntry) (c : Criteria) : Bool :=
  let text :=
    if c.field ≠ "" then
      match fieldsLookup entry.fields c.field with
      | some (GoVal.str t) => t
      | some v => jsonMarshal v
      | none => ""
    else entry.raw
  match ev.re with
  | some re => re text
  | none => strContains (goToLower text) (goToLower c.query)

/-- The parameter map handed to the compiled expression: all entry fields
plus `level` and (when the timestamp is set) its RFC3339 rendering as
`ts`. -/
def buildParams (entry : LogEntry) : Fields :=
  let params := insertAll [] entry.fields
  let params := fieldsInsert params "level" (GoVal.str entry.level)
  match entry.timestamp with
  | some t => fieldsInsert params "ts" (GoVal.str t.iso)
  | none => params

/-- `Evaluator.Match(entry, c)`: level gate, then query gate, then the
expression gate (errors and non-boolean results fail closed). -/
def Match (ev : Evaluator) (entry : LogEntry) (c : Criteria) : Bool :=
  if c.levels.length > 0 ∧ boolMapGet c.levels (goToUpper entry.level) = false then false
  else if c.query ≠ "" ∧ queryPass ev entry c = false then false
  else
    match ev.expr with
    | none => true
    | some f =>
        match f (buildParams entry) with
        | Except.error _ => false
        | Except.ok v =>
            match v with
            | GoVal.bool b => b
            | _ => false

/-- A log entry with only the raw text set (used by concrete instances). -/
def mkEntry (raw : String) : LogEntry :=
  { raw := raw, fields := [], timestamp := none, level := "", source := "",
    formatName := "", schemaVer := "" }

/-- The spec's fixed canonical level set, written from the spec's words as
a lookup (`TRACE, DEBUG, INFO, WARN/WARNING, ERROR/ERR, FATAL/CRITICAL`),
for comparison against `normalizeLevel`. -/
def canonicalLevel (l : String) : Option String :=
  if l = "TRACE" then some "TRACE"
  else if l = "DEBUG" then some "DEBUG"
  else if l = "INFO" then some "INFO"
  else if l = "WARN" ∨ l = "WARNING" then some "WARN"
  else if l = "ERROR" ∨ l = "ERR" then some "ERROR"
  else if l = "FATAL" ∨ l = "CRITICAL" then some "FATAL"
  else none

/-- A five-line sample: one Apache combined access-log line and four
plain lines that no recognizer hits. -/
def apacheSampleLines : List String :=
  ["1.2.3.4 - - [10/Oct/2000:13:55:36 -0700] \"GET /index.html HTTP/1.0\" 200 2326 \"-\" \"Mozilla\"",
   "hello world", "hello world", "hello world", "hello world"]

/-! ## List helper facts -/

theorem getD_set_self {α : Type} [Inhabited α] :
    ∀ (l : List α) (i : Nat) (a : α), i < l.length →
      (l.set i a).getD i default = a := by
  intro l
  induction l with
  | nil => intro i a h; simp at h
  | cons x xs ih =>
      intro i a h
      cases i with
      | zero => rfl
      | succ j =>
          simp only [List.set, List.getD, List.get?]
          exact ih j a (by simpa using h)

theorem getD_set_ne {α : Type} [Inhabited α] :
    ∀ (l : List α) (i j : Nat) (a : α), i ≠ j →
      (l.set i a).getD j default = l.getD j default := by
  intro l
  induction l with
  | nil => intro i j a _; simp [List.set]
  | cons x xs ih =>
      intro i j a hij
      cases i with
      | zero =>
          cases j with
          | zero => exact absurd rfl hij
          | succ j' => rfl
      | succ i' =>
          cases j with
          | zero => rfl
          | succ j' =>
              simp only [List.set, List.getD, List.get?]
              exact ih i' j' a (fun h => hij (by rw [h]))

theorem getD_eq_get {α : Type} [Inhabited α] :
    ∀ (l : List α) (i : Nat) (h : i < l.length),
      l.getD i default = l.get ⟨i, h⟩ := by
  intro l
  induction l with
  | nil => intro i h; simp at h
  | cons x xs ih =>
      intro i h
      cases i with
      | zero => rfl
      | succ j => exact ih j (by simpa using h)

theorem mod_inj_of_lt (c s i j : Nat) (hi : i < c) (hj : j < c)
    (h : (s + i) % c = (s + j) % c) : i = j := by
  have hmod : Nat.ModEq c (s + i) (s + j) := h
  have hij : Nat.ModEq c i j := Nat.ModEq.add_left_cancel' s hmod
  have : i % c = j % c := hij
  rwa [Nat.mod_eq_of_lt hi, Nat.mod_eq_of_lt hj] at this

/-! ## RingBuf lemmas -/

theorem represents_newRing (c : Nat) (hc : 1 ≤ c) :
    Represents (NewRing c) [] := by
  refine ⟨by simp [NewRing], rfl, by simp, hc, ?_⟩
  intro i hi
  simp at hi

theorem push_represents (r : RingBuf) (v : List LogEntry) (e : LogEntry)
    (h : Represents r v) :
    ∃ r1, r.push? e = some r1 ∧
      Represents r1 (takeLast r.cap (v ++ [e])) ∧
      r1.cap = r.cap ∧ r1.total = r.total + 1 ∧
      ((v.length < r.cap ∧ r1.dropped = r.dropped) ∨
       (v.length = r.cap ∧ r1.dropped = r.dropped + 1)) := by
  obtain ⟨hlen, hsize, hvc, hstart, hcontents⟩ := h
  have hcpos : 0 < r.cap := Nat.lt_of_le_of_lt (Nat.zero_le _) hstart
  by_cases hfull : r.size < r.cap
  · -- not yet full: append
    have hvlt : v.length < r.cap := hsize ▸ hfull
    have hi : (r.start + r.size) % r.cap < r.buf.length := by
      rw [hlen]; exact Nat.mod_lt _ hcpos
    refine ⟨{ r with
                buf := r.buf.set ((r.start + r.size) % r.cap) e
                size := r.size + 1
                total := r.total + 1 },
            ?_, ?_, rfl, rfl, Or.inl ⟨hvlt, rfl⟩⟩
    · simp only [RingBuf.push?]
      rw [if_pos hfull, if_pos hi]
    · have htake : takeLast r.cap (v ++ [e]) = v ++ [e] := by
        unfold takeLast
        have h0 : (v ++ [e]).length - r.cap = 0 := by simp; omega
        rw [h0, List.drop_zero]
      rw [htake]
      refine ⟨by simpa using hlen, by simpa using hsize, by simp; omega, hstart, ?_⟩
      intro i hi2
      simp only [List.length_append, List.length_cons, List.length_nil] at hi2
      show (r.buf.set ((r.start + r.size) % r.cap) e).getD ((r.start + i) % r.cap) default =
        (v ++ [e]).getD i default
      by_cases hie : i < v.length
      · have hne : (r.start + r.size) % r.cap ≠ (r.start + i) % r.cap := by
          intro hcontra
          have := mod_inj_of_lt r.cap r.start r.size i hfull
            (Nat.lt_trans hie hvlt) hcontra
          omega
        rw [getD_set_ne _ _ _ _ hne, hcontents i hie]
        unfold List.getD
        rw [List.get?_append hie]
      · have hieq : i = v.length := by omega
        subst hieq
        rw [← hsize, getD_set_self _ _ _ hi]
        unfold List.getD
        rw [hsize, List.get?_append_right (Nat.le_refl _)]
        simp
  · -- full: overwrite oldest
    have hsc : r.size = r.cap := by omega
    have hvcap : v.length = r.cap := by omega
    have hib : r.start < r.buf.length := hlen ▸ hstart
    refine ⟨{ r with
                buf := r.buf.set r.start e
                start := (r.start + 1) % r.cap
                dropped := r.dropped + 1
                total := r.total + 1 },
            ?_, ?_, rfl, rfl, Or.inr ⟨hvcap, rfl⟩⟩
    · simp only [RingBuf.push?]
      rw [if_neg hfull, if_pos hib]
    · have htake : takeLast r.cap (v ++ [e]) = v.drop 1 ++ [e] := by
        unfold takeLast
        have h1 : (v ++ [e]).length - r.cap = 1 := by simp; omega
        rw [h1, List.drop_append_of_le_length (by omega)]
      rw [htake]
      have hdlen : (v.drop 1 ++ [e]).length = r.cap := by
        simp [List.length_drop]; omega
      refine ⟨by simpa using hlen, by rw [hdlen]; exact hsc,
        le_of_eq hdlen, Nat.mod_lt _ hcpos, ?_⟩
      intro i hi2
      rw [hdlen] at hi2
      show (r.buf.set r.start e).getD (((r.start + 1) % r.cap + i) % r.cap) default =
        (v.drop 1 ++ [e]).getD i default
      by_cases hlast : i < r.cap - 1
      · have harith : ((r.start + 1) % r.cap + i) % r.cap = (r.start + (i + 1)) % r.cap := by
          rw [Nat.mod_add_mod, show r.start + 1 + i = r.start + (i + 1) from by omega]
        rw [harith]
        have hne : r.start ≠ (r.start + (i + 1)) % r.cap := by
          intro hcontra
          have h0 : (r.start + 0) % r.cap = (r.start + (i + 1)) % r.cap := by
            rw [Nat.add_zero, Nat.mod_eq_of_lt hstart]; exact hcontra
          have hlt1 : i + 1 < r.cap := by omega
          have h2 := mod_inj_of_lt r.cap r.start 0 (i + 1) hcpos hlt1 h0
          exact absurd h2.symm (Nat.succ_ne_zero i)
        rw [getD_set_ne _ _ _ _ hne, hcontents (i + 1) (by omega)]
        unfold List.getD
        rw [List.get?_append (by simp [List.length_drop]; omega)]
        rw [List.get?_drop, Nat.add_comm 1 i]
      · have hieq : i = r.cap - 1 := by omega
        subst hieq
        have harith : ((r.start + 1) % r.cap + (r.cap - 1)) % r.cap = r.start := by
          rw [Nat.mod_add_mod]
          rw [show r.start + 1 + (r.cap - 1) = r.start + r.cap from by omega]
          rw [Nat.add_mod_right]
          exact Nat.mod_eq_of_lt hstart
        rw [harith, getD_set_self _ _ _ hib]
        unfold List.getD
        rw [List.get?_append_right (by simp [List.length_drop]; omega)]
        simp [List.length_drop]
        rw [show r.cap - 1 - (v.length - 1) = 0 by omega]
        rfl
theorem takeLast_idem_append {α : Type} (n : Nat) (u l : List α) :
    takeLast n (takeLast n u ++ l) = takeLast n (u ++ l) := by
  unfold takeLast
  rcases Nat.le_total u.length n with h | h
  · have : u.length - n = 0 := by omega
    simp [this]
  · have hlen : (u.drop (u.length - n)).length = n := by
      simp [List.length_drop]; omega
    rw [List.length_append, List.length_append, hlen]
    rw [List.drop_append_eq_append_drop, List.drop_append_eq_append_drop]
    rw [List.drop_drop, hlen]
    congr 2 <;> omega

theorem pushAll_represents :
    ∀ (l : List LogEntry) (r : RingBuf) (v : List LogEntry), Represents r v →
      ∃ r1, pushAll? r l = some r1 ∧
        Represents r1 (takeLast r.cap (v ++ l)) ∧
        r1.cap = r.cap ∧
        r1.total = r.total + l.length ∧
        r1.dropped = r.dropped + (v.length + l.length - r.cap) := by
  intro l
  induction l with
  | nil =>
      intro r v h
      refine ⟨r, rfl, ?_, rfl, rfl, ?_⟩
      · have : takeLast r.cap (v ++ []) = v := by
          unfold takeLast
          have : v.length - r.cap = 0 := by
            have := h.2.2.1
            omega
          simp [this]
        rw [this]; exact h
      · have hvc := h.2.2.1
        simp only [List.length_nil, Nat.add_zero]
        omega
  | cons e rest ih =>
      intro r v h
      obtain ⟨r1, hpush, hrep1, hcap1, htot1, hdisj⟩ :=
        push_represents r v e h
      obtain ⟨r2, hpush2, hrep2, hcap2, htot2, hdrop2⟩ :=
        ih r1 (takeLast r.cap (v ++ [e])) hrep1
      refine ⟨r2, ?_, ?_, by rw [hcap2, hcap1], ?_, ?_⟩
      · have hstep : pushAll? r (e :: rest) =
            match r.push? e with
            | some r1 => pushAll? r1 rest
            | none => none := rfl
        rw [hstep, hpush]
        exact hpush2
      · rw [hcap1] at hrep2
        have : takeLast r.cap (takeLast r.cap (v ++ [e]) ++ rest) =
            takeLast r.cap (v ++ e :: rest) := by
          rw [takeLast_idem_append]
          congr 1
          simp
        rwa [this] at hrep2
      · rw [htot2, htot1]; simp [List.length_cons]; omega
      · rw [hdrop2, hcap1]
        have hlen1 : (takeLast r.cap (v ++ [e])).length =
            min (v.length + 1) r.cap := by
          unfold takeLast
          simp [List.length_drop]
          omega
        have hvc := h.2.2.1
        rcases hdisj with ⟨hlt, hd⟩ | ⟨heq, hd⟩
        · rw [hd, hlen1]
          simp only [List.length_cons]
          omega
        · rw [hd, hlen1]
          simp only [List.length_cons]
          omega

theorem snapshot_represents (r : RingBuf) (v : List LogEntry)
    (h : Represents r v) : r.snapshot = (v, r.total, r.dropped) := by
  obtain ⟨hlen, hsize, hvc, hstart, hcontents⟩ := h
  unfold RingBuf.snapshot
  refine Prod.ext ?_ rfl
  simp only
  apply List.ext_get
  · simp [hsize]
  · intro i h1 h2
    simp only [List.length_map, List.length_range] at h1
    rw [← getD_eq_get]
    rw [← getD_eq_get]
    have hrange : ((List.range r.size).map
        (fun i => r.buf.getD ((r.start + i) % r.cap) default)).getD i default =
        r.buf.getD ((r.start + i) % r.cap) default := by
      unfold List.getD
      rw [List.get?_map]
      rw [List.get?_range (by omega)]
      rfl
    rw [hrange]
    exact hcontents i (hsize ▸ h1)

/-! ## Supporting lemmas for resize -/

theorem snapshot_padded (w : List LogEntry) (pad n k total dropped : Nat)
    (hk : k = w.length) (hwn : w.length ≤ n) :
    RingBuf.snapshot
      { buf := w ++ List.replicate pad default, cap := n, start := 0,
        size := k, total := total, dropped := dropped } = (w, total, dropped) := by
  subst hk
  unfold RingBuf.snapshot
  refine Prod.ext ?_ rfl
  simp only
  apply List.ext_get
  · simp
  · intro i h1 h2
    simp only [List.length_map, List.length_range] at h1
    rw [← getD_eq_get, ← getD_eq_get]
    have hget : ((List.range w.length).map
        (fun j => (w ++ List.replicate pad default).getD ((0 + j) % n) default)).getD i default =
        (w ++ List.replicate pad default).getD ((0 + i) % n) default := by
      unfold List.getD
      rw [List.get?_map, List.get?_range h1]
      rfl
    rw [hget]
    have hmod : (0 + i) % n = i := by
      rw [Nat.zero_add]
      exact Nat.mod_eq_of_lt (lt_of_lt_of_le h1 hwn)
    rw [hmod]
    unfold List.getD
    rw [List.get?_append h1]

/-! ## Claim theorems -/

/-- C1: for every capacity `C >= 1` and every sequence of `N` entries
pushed into a fresh Ring of capacity `C`, `Snapshot()` returns exactly
`min(N, C)` entries equal to the last `min(N, C)` pushed entries in push
order (oldest first), `totalDropped = max(0, N - C)` (here `N - C`
truncated at 0) and `totalIngested = N`. -/
theorem ring_push_snapshot_spec (c : Nat) (hc : 1 ≤ c) (l : List LogEntry) :
    ∃ r1, pushAll? (NewRing c) l = some r1 ∧
      r1.snapshot = (l.drop (l.length - c), l.length, l.length - c) ∧
      (l.drop (l.length - c)).length = min l.length c := by
  obtain ⟨r1, hp, hrep, hcap, htot, hdrop⟩ :=
    pushAll_represents l (NewRing c) [] (represents_newRing c hc)
  have hsnap := snapshot_represents r1 _ hrep
  refine ⟨r1, hp, ?_, ?_⟩
  · rw [hsnap, htot, hdrop]
    have h1 : takeLast (NewRing c).cap ([] ++ l) = l.drop (l.length - c) := by
      unfold takeLast
      simp [NewRing]
    rw [h1]
    simp [NewRing]
  · simp [List.length_drop]
    omega

/-- Witness for C1 at capacity 2 and three pushed entries. -/
theorem ring_push_snapshot_spec_witness :
    ∃ r1, pushAll? (NewRing 2) [mkEntry "1", mkEntry "2", mkEntry "3"] = some r1 ∧
      r1.snapshot = ([mkEntry "2", mkEntry "3"], 3, 1) := by
  obtain ⟨r1, hp, hsnap, -⟩ :=
    ring_push_snapshot_spec 2 (by omega) [mkEntry "1", mkEntry "2", mkEntry "3"]
  refine ⟨r1, hp, ?_⟩
  rw [hsnap]
  rfl

/-- C7: `Resize(newCapacity)` preserves the most recent
`min(size, newCapacity)` entries (in order) and does not reset the
`totalIngested` or `totalDropped` counters (the `[1..10] -> 4` instance
is the witness). -/
theorem ring_resize_preserves_recent (r : RingBuf) (v : List LogEntry)
    (newCapacity : Nat) (h : Represents r v) :
    (r.resize newCapacity).snapshot = (takeLast newCapacity v, r.total, r.dropped) ∧
    (takeLast newCapacity v).length = min v.length newCapacity ∧
    (r.resize newCapacity).total = r.total ∧
    (r.resize newCapacity).dropped = r.dropped := by
  have hsize : r.size = v.length := h.2.1
  have hsnap := snapshot_represents r v h
  refine ⟨?_, ?_, rfl, rfl⟩
  · have hre : r.resize newCapacity =
        { buf := v.drop (v.length - min r.size newCapacity) ++
            List.replicate (newCapacity - min r.size newCapacity) default,
          cap := newCapacity, start := 0, size := min r.size newCapacity,
          total := r.total, dropped := r.dropped } := by
      unfold RingBuf.resize
      rw [hsnap]
    rw [hre]
    have htk : takeLast newCapacity v = v.drop (v.length - min r.size newCapacity) := by
      unfold takeLast
      congr 1
      omega
    rw [htk]
    exact snapshot_padded _ _ _ _ _ _
      (by simp [List.length_drop]; omega) (by simp [List.length_drop]; omega)
  · unfold takeLast
    simp [List.length_drop]
    omega

/-- Witness for C7: entries 1..10 at capacity 10, resized to 4, snapshot
exactly the entries 7, 8, 9, 10 with counters kept. -/
theorem ring_resize_preserves_recent_witness :
    (({ buf := [mkEntry "1", mkEntry "2", mkEntry "3", mkEntry "4", mkEntry "5",
        mkEntry "6", mkEntry "7", mkEntry "8", mkEntry "9", mkEntry "10"],
        cap := 10, start := 0, size := 10, total := 10, dropped := 0 } : RingBuf).resize 4).snapshot =
      ([mkEntry "7", mkEntry "8", mkEntry "9", mkEntry "10"], 10, 0) := by
  have hrep : Represents
      { buf := [mkEntry "1", mkEntry "2", mkEntry "3", mkEntry "4", mkEntry "5",
        mkEntry "6", mkEntry "7", mkEntry "8", mkEntry "9", mkEntry "10"],
        cap := 10, start := 0, size := 10, total := 10, dropped := 0 }
      [mkEntry "1", mkEntry "2", mkEntry "3", mkEntry "4", mkEntry "5",
        mkEntry "6", mkEntry "7", mkEntry "8", mkEntry "9", mkEntry "10"] := by
    unfold Represents
    refine ⟨rfl, rfl, by decide, by decide, ?_⟩
    intro i hi
    simp only [List.length_cons, List.length_nil] at hi
    interval_cases i <;> rfl
  have h := ring_resize_preserves_recent _ _ 4 hrep
  rw [h.1]
  rfl

/-- C10: `NewRing` does not enforce `capacity >= 1`: on `NewRing(0)` every
`Push` reaches the overwrite branch (`size < cap` is false) and indexes an
empty backing array (a panic, modelled as `none`); under `capacity >= 1`
and the structural invariant, `Push` always finds its slot in range and
preserves the invariant. -/
theorem ring_push_capacity_safety :
    (∀ e, (NewRing 0).push? e = none) ∧
    (∀ r e, RingWF r → 1 ≤ r.cap → ∃ r1, r.push? e = some r1 ∧ RingWF r1) ∧
    (∀ c, 1 ≤ c → RingWF (NewRing c)) := by
  refine ⟨fun e => rfl, ?_, ?_⟩
  · intro r e hwf hcap
    obtain ⟨hlen, hstart, hsize⟩ := hwf
    by_cases hfull : r.size < r.cap
    · have hi : (r.start + r.size) % r.cap < r.buf.length := by
        rw [hlen]
        exact Nat.mod_lt _ (by omega)
      refine ⟨{ r with
                  buf := r.buf.set ((r.start + r.size) % r.cap) e
                  size := r.size + 1
                  total := r.total + 1 }, ?_, ?_⟩
      · simp only [RingBuf.push?]
        rw [if_pos hfull, if_pos hi]
      · refine ⟨?_, ?_, ?_⟩
        · show (r.buf.set ((r.start + r.size) % r.cap) e).length = r.cap
          simp [hlen]
        · show r.start < r.cap
          exact hstart
        · show r.size + 1 ≤ r.cap
          omega
    · have hib : r.start < r.buf.length := hlen ▸ hstart
      refine ⟨{ r with
                  buf := r.buf.set r.start e
                  start := (r.start + 1) % r.cap
                  dropped := r.dropped + 1
                  total := r.total + 1 }, ?_, ?_⟩
      · simp only [RingBuf.push?]
        rw [if_neg hfull, if_pos hib]
      · refine ⟨?_, ?_, ?_⟩
        · show (r.buf.set r.start e).length = r.cap
          simp [hlen]
        · show (r.start + 1) % r.cap < r.cap
          exact Nat.mod_lt _ (by omega)
        · show r.size ≤ r.cap
          exact hsize
  · intro c hc
    refine ⟨?_, ?_, ?_⟩
    · show (List.replicate c (default : LogEntry)).length = c
      simp
    · show 0 < c
      omega
    · show 0 ≤ c
      omega

/-- Witness for C10: a push on `NewRing 0` is the error branch; a push on
`NewRing 3` succeeds. -/
theorem ring_push_capacity_safety_witness :
    (NewRing 0).push? (mkEntry "x") = none ∧
    ∃ r1, (NewRing 3).push? (mkEntry "x") = some r1 ∧ RingWF r1 :=
  ⟨ring_push_capacity_safety.1 (mkEntry "x"),
   ring_push_capacity_safety.2.1 (NewRing 3) (mkEntry "x")
     (ring_push_capacity_safety.2.2 3 (by omega)) (by decide)⟩

/-- C9: the classifier is deterministic — two runs of `Heuristics` on the
same ordered sample return the same `Schema` and the same confidence (the
embedding is a pure function of the sample). -/
theorem classifier_deterministic (s t : List String) (h : s = t) :
    Heuristics s = Heuristics t ∧
    (Heuristics s).schema.formatName = (Heuristics t).schema.formatName ∧
    (Heuristics s).confidence = (Heuristics t).confidence := by
  subst h
  exact ⟨rfl, rfl, rfl⟩

/-- Witness for C9 on a concrete sample. -/
theorem classifier_deterministic_witness :
    Heuristics ["a=1", "b=2"] = Heuristics ["a=1", "b=2"] :=
  (classifier_deterministic ["a=1", "b=2"] ["a=1", "b=2"] rfl).1

/-- C2 counterexample: the claim says a non-unknown format is returned
only when its hit count is at least half the non-blank sample size, but
on `apacheSampleLines` the classifier returns `apache_combined` with a
single hit out of five non-blank lines (the Apache and syslog branches
of the source have no half-sample threshold). -/
theorem classifier_selection_counterexample :
    (Heuristics apacheSampleLines).schema.formatName = "apache_combined" ∧
    (heurCounts apacheSampleLines).apache = 1 ∧
    (heurCounts apacheSampleLines).lines = 5 ∧
    2 * (heurCounts apacheSampleLines).apache < (heurCounts apacheSampleLines).lines :=
  ⟨rfl, rfl, rfl, by decide⟩

/-- C2 (amended): the half-sample threshold (with floor division) applies
only to the JSON and logfmt branches; Apache needs only at-least-one hit
(and at least as many hits as syslog), syslog needs only at-least-one
hit; a format with the strictly highest hit count clearing half the
sample is selected; an all-miss sample falls through to unknown when it
has at least two non-blank lines. -/
theorem classifier_selection_amended (sample : List String) :
    (((Heuristics sample).schema.formatName = "json_lines" →
        (heurCounts sample).json ≥ (heurCounts sample).lines / 2) ∧
     ((Heuristics sample).schema.formatName = "logfmt" →
        (heurCounts sample).logfmt ≥ (heurCounts sample).lines / 2) ∧
     ((Heuristics sample).schema.formatName = "apache_combined" →
        1 ≤ (heurCounts sample).apache) ∧
     ((Heuristics sample).schema.formatName = "syslog_rfc5424" →
        1 ≤ (heurCounts sample).syslog)) ∧
    (((heurCounts sample).json > (heurCounts sample).logfmt →
        (heurCounts sample).json > (heurCounts sample).apache →
        (heurCounts sample).json > (heurCounts sample).syslog →
        2 * (heurCounts sample).json ≥ (heurCounts sample).lines →
        Heuristics sample =
          ⟨jsonSchema, conf (heurCounts sample).lines (heurCounts sample).json⟩) ∧
     ((heurCounts sample).logfmt > (heurCounts sample).json →
        (heurCounts sample).logfmt > (heurCounts sample).apache →
        (heurCounts sample).logfmt > (heurCounts sample).syslog →
        2 * (heurCounts sample).logfmt ≥ (heurCounts sample).lines →
        Heuristics sample =
          ⟨logfmtSchema, conf (heurCounts sample).lines (heurCounts sample).logfmt⟩) ∧
     ((heurCounts sample).apache > (heurCounts sample).json →
        (heurCounts sample).apache > (heurCounts sample).logfmt →
        (heurCounts sample).apache > (heurCounts sample).syslog →
        2 * (heurCounts sample).apache ≥ (heurCounts sample).lines →
        Heuristics sample =
          ⟨apacheSchema, conf (heurCounts sample).lines (heurCounts sample).apache⟩) ∧
     ((heurCounts sample).syslog > (heurCounts sample).json →
        (heurCounts sample).syslog > (heurCounts sample).logfmt →
        (heurCounts sample).syslog > (heurCounts sample).apache →
        2 * (heurCounts sample).syslog ≥ (heurCounts sample).lines →
        Heuristics sample =
          ⟨syslogSchema, conf (heurCounts sample).lines (heurCounts sample).syslog⟩)) ∧
    ((heurCounts sample).json = 0 → (heurCounts sample).logfmt = 0 →
      (heurCounts sample).apache = 0 → (heurCounts sample).syslog = 0 →
      2 ≤ (heurCounts sample).lines →
      Heuristics sample = ⟨unknownSchema, 0⟩) := by
  simp only [Heuristics]
  split_ifs with h1 h2 h3 h4
  · obtain ⟨hj1, hj2, hj3, hj4⟩ := h1
    refine ⟨⟨?_, ?_, ?_, ?_⟩, ⟨?_, ?_, ?_, ?_⟩, ?_⟩
    · intro _; exact hj4
    · intro h
      simp [jsonSchema, logfmtSchema, apacheSchema, syslogSchema, unknownSchema] at h
    · intro h
      simp [jsonSchema, logfmtSchema, apacheSchema, syslogSchema, unknownSchema] at h
    · intro h
      simp [jsonSchema, logfmtSchema, apacheSchema, syslogSchema, unknownSchema] at h
    · intro _ _ _ _; rfl
    · intro hf _ _ _; omega
    · intro _ ha _ _; omega
    · intro _ _ hy _; omega
    · intro hz1 hz2 _ _ _; omega
  · obtain ⟨hl1, hl2, hl3⟩ := h2
    refine ⟨⟨?_, ?_, ?_, ?_⟩, ⟨?_, ?_, ?_, ?_⟩, ?_⟩
    · intro h
      simp [jsonSchema, logfmtSchema, apacheSchema, syslogSchema, unknownSchema] at h
    · intro _; exact hl3
    · intro h
      simp [jsonSchema, logfmtSchema, apacheSchema, syslogSchema, unknownSchema] at h
    · intro h
      simp [jsonSchema, logfmtSchema, apacheSchema, syslogSchema, unknownSchema] at h
    · intro p1 p2 p3 p4; exact absurd ⟨p1, p2, p3, by omega⟩ h1
    · intro _ _ _ _; rfl
    · intro _ p2 _ _; omega
    · intro _ p2 _ _; omega
    · intro _ hz2 _ _ hz5; omega
  · obtain ⟨ha1, ha2⟩ := h3
    refine ⟨⟨?_, ?_, ?_, ?_⟩, ⟨?_, ?_, ?_, ?_⟩, ?_⟩
    · intro h
      simp [jsonSchema, logfmtSchema, apacheSchema, syslogSchema, unknownSchema] at h
    · intro h
      simp [jsonSchema, logfmtSchema, apacheSchema, syslogSchema, unknownSchema] at h
    · intro _; exact ha2
    · intro h
      simp [jsonSchema, logfmtSchema, apacheSchema, syslogSchema, unknownSchema] at h
    · intro p1 p2 p3 p4; exact absurd ⟨p1, p2, p3, by omega⟩ h1
    · intro p1 p2 p3 p4; exact absurd ⟨by omega, by omega, by omega⟩ h2
    · intro _ _ _ _; rfl
    · intro _ _ p3 _; omega
    · intro _ _ hz3 _ _; omega
  · refine ⟨⟨?_, ?_, ?_, ?_⟩, ⟨?_, ?_, ?_, ?_⟩, ?_⟩
    · intro h
      simp [jsonSchema, logfmtSchema, apacheSchema, syslogSchema, unknownSchema] at h
    · intro h
      simp [jsonSchema, logfmtSchema, apacheSchema, syslogSchema, unknownSchema] at h
    · intro h
      simp [jsonSchema, logfmtSchema, apacheSchema, syslogSchema, unknownSchema] at h
    · intro _; exact h4
    · intro p1 p2 p3 p4; exact absurd ⟨p1, p2, p3, by omega⟩ h1
    · intro p1 p2 p3 p4; exact absurd ⟨by omega, by omega, by omega⟩ h2
    · intro p1 p2 p3 p4; exact absurd ⟨by omega, by omega⟩ h3
    · intro _ _ _ _; rfl
    · intro _ _ _ hz4 _; omega
  · refine ⟨⟨?_, ?_, ?_, ?_⟩, ⟨?_, ?_, ?_, ?_⟩, ?_⟩
    · intro h
      simp [jsonSchema, logfmtSchema, apacheSchema, syslogSchema, unknownSchema] at h
    · intro h
      simp [jsonSchema, logfmtSchema, apacheSchema, syslogSchema, unknownSchema] at h
    · intro h
      simp [jsonSchema, logfmtSchema, apacheSchema, syslogSchema, unknownSchema] at h
    · intro h
      simp [jsonSchema, logfmtSchema, apacheSchema, syslogSchema, unknownSchema] at h
    · intro p1 p2 p3 p4; exact absurd ⟨p1, p2, p3, by omega⟩ h1
    · intro p1 p2 p3 p4; exact absurd ⟨by omega, by omega, by omega⟩ h2
    · intro p1 p2 p3 p4; exact absurd ⟨by omega, by omega⟩ h3
    · intro p1 p2 p3 p4
      exact absurd (show (heurCounts sample).syslog > 0 by omega) h4
    · intro _ _ _ _ _; rfl

/-- Witness for the amended C2 selection rule: two JSON lines and one
plain line select the JSON schema with confidence `hits / lines`. -/
theorem classifier_selection_amended_witness :
    Heuristics ["\x7b\"a\":1\x7d", "\x7b\"b\":2\x7d", "plain text"] =
      ⟨jsonSchema,
        conf (heurCounts ["\x7b\"a\":1\x7d", "\x7b\"b\":2\x7d", "plain text"]).lines
          (heurCounts ["\x7b\"a\":1\x7d", "\x7b\"b\":2\x7d", "plain text"]).json⟩ :=
  (classifier_selection_amended ["\x7b\"a\":1\x7d", "\x7b\"b\":2\x7d", "plain text"]).2.1.1
    (by decide) (by decide) (by decide) (by decide)

/-- `normalizeLevel` rephrased: explicit mapping first, then the
canonical set, then pass-through of the trimmed uppercased value. -/
theorem normalizeLevel_eq (s : Schema) (lvl : String) :
    normalizeLevel s lvl =
      (match s.levelMapping.find? (fun kv => goToUpper kv.1 = goToUpper (goTrim lvl)) with
       | some kv => goToUpper kv.2
       | none =>
           match canonicalLevel (goToUpper (goTrim lvl)) with
           | some c => c
           | none => goToUpper (goTrim lvl)) := by
  simp only [normalizeLevel]
  cases hfind : s.levelMapping.find? (fun kv => goToUpper kv.1 = goToUpper (goTrim lvl)) with
  | none =>
      simp only [canonicalLevel]
      split_ifs <;> rfl
  | some kv => rfl

/-- C8 counterexample: the claim says unrecognized raw values pass
through uppercased and otherwise unchanged, but `normalizeLevel` also
trims whitespace first: on `" err "` (uppercased `" ERR "`, which is in
no canonical set entry and no mapping) the code returns `"ERROR"`, not
`" ERR "`. -/
theorem normalize_level_counterexample :
    normalizeLevel unknownSchema " err " = "ERROR" ∧
    goToUpper " err " = " ERR " ∧
    canonicalLevel " ERR " = none ∧
    normalizeLevel unknownSchema " err " ≠ goToUpper " err " :=
  ⟨rfl, rfl, rfl, by decide⟩

/-- C8 (amended): level normalization trims surrounding whitespace and
uppercases the raw value; the explicit levelMapping entry wins when a
case-insensitive key match exists (its value returned uppercased);
otherwise the fixed canonical set (TRACE, DEBUG, INFO, WARN/WARNING to
WARN, ERROR/ERR to ERROR, FATAL/CRITICAL to FATAL) applies; otherwise
the trimmed uppercased value passes through. -/
theorem normalize_level_amended (s : Schema) (lvl : String) :
    (∀ kv, s.levelMapping.find? (fun kv => goToUpper kv.1 = goToUpper (goTrim lvl)) = some kv →
      normalizeLevel s lvl = goToUpper kv.2) ∧
    (s.levelMapping.find? (fun kv => goToUpper kv.1 = goToUpper (goTrim lvl)) = none →
      ∀ c, canonicalLevel (goToUpper (goTrim lvl)) = some c →
        normalizeLevel s lvl = c) ∧
    (s.levelMapping.find? (fun kv => goToUpper kv.1 = goToUpper (goTrim lvl)) = none →
      canonicalLevel (goToUpper (goTrim lvl)) = none →
      normalizeLevel s lvl = goToUpper (goTrim lvl)) := by
  refine ⟨?_, ?_, ?_⟩
  · intro kv hkv
    rw [normalizeLevel_eq, hkv]
  · intro hn c hc
    rw [normalizeLevel_eq, hn, hc]
  · intro hn hc
    rw [normalizeLevel_eq, hn, hc]

/-- Witness for the amended C8: the explicit mapping maps `warning` to
`WARN`; with an empty mapping the canonical set maps `critical` to
`FATAL`. -/
theorem normalize_level_amended_witness :
    normalizeLevel jsonSchema "warning" = goToUpper ("warning", "WARN").2 ∧
    normalizeLevel unknownSchema "critical" = "FATAL" :=
  ⟨(normalize_level_amended jsonSchema "warning").1 ("warning", "WARN") rfl,
   (normalize_level_amended unknownSchema "critical").2.1 rfl "FATAL" rfl⟩

/-- C6: for every entry and criteria, when the compiled expression
evaluates to an error (which is what referencing a non-existent
parameter produces) or to a non-boolean value, `Match` returns `false`;
`Match` is a total boolean function, so no error is ever raised at match
time. -/
theorem match_fail_closed (ev : Evaluator) (entry : LogEntry) (c : Criteria)
    (f : Fields → Except String GoVal) (hf : ev.expr = some f)
    (hbad : (∃ msg, f (buildParams entry) = Except.error msg) ∨
            (∀ b, f (buildParams entry) ≠ Except.ok (GoVal.bool b))) :
    Match ev entry c = false := by
  unfold Match
  split_ifs with h1 h2
  · rfl
  · rfl
  · rw [hf]
    show (match f (buildParams entry) with
          | Except.error _ => false
          | Except.ok v =>
              match v with
              | GoVal.bool b => b
              | _ => false) = false
    rcases hbad with ⟨msg, he⟩ | hnb
    · rw [he]
    · cases hres : f (buildParams entry) with
      | error msg => rfl
      | ok v =>
          cases v with
          | bool b => exact absurd hres (hnb b)
          | str t => rfl
          | num t => rfl
          | int n => rfl
          | null => rfl
          | obj o => rfl

/-- Witness for C6: an expression oracle that always errors (as for a
reference to a missing field) makes `Match` return `false` on a concrete
entry. -/
theorem match_fail_closed_witness :
    Match { re := none, expr := some (fun _ => Except.error "unknown parameter") }
      default
      { query := "", useRegex := false, levels := [], expr := "missing > 1", field := "" } =
      false :=
  match_fail_closed _ _ _ _ rfl (Or.inl ⟨"unknown parameter", rfl⟩)

/-! ## Association-list facts for the merge claims -/

theorem fieldsLookup_insert_self :
    ∀ (m : Fields) (k : String) (v : GoVal),
      fieldsLookup (fieldsInsert m k v) k = some v := by
  intro m k v
  induction m with
  | nil => simp [fieldsInsert, fieldsLookup]
  | cons kv t ih =>
      obtain ⟨k0, v0⟩ := kv
      by_cases h : k0 = k
      · simp [fieldsInsert, h, fieldsLookup]
      · simp [fieldsInsert, h, fieldsLookup, ih]

theorem fieldsLookup_insert_ne :
    ∀ (m : Fields) (k q : String) (v : GoVal), q ≠ k →
      fieldsLookup (fieldsInsert m k v) q = fieldsLookup m q := by
  intro m k q v hq
  induction m with
  | nil =>
      show (if k = q then some v else none) = none
      rw [if_neg (fun h => hq h.symm)]
  | cons kv t ih =>
      obtain ⟨k0, v0⟩ := kv
      simp only [fieldsInsert]
      by_cases h : k0 = k
      · subst h
        rw [if_pos rfl]
        simp only [fieldsLookup]
        rw [if_neg (fun he => hq he.symm), if_neg (fun he => hq he.symm)]
      · rw [if_neg h]
        simp only [fieldsLookup]
        by_cases h2 : k0 = q
        · rw [if_pos h2, if_pos h2]
        · rw [if_neg h2, if_neg h2, ih]

theorem fieldsLookup_none_not_mem :
    ∀ (m : Fields) (q : String), fieldsLookup m q = none →
      ∀ kv ∈ m, kv.1 ≠ q := by
  intro m q hm kv hkv
  induction m with
  | nil => simp at hkv
  | cons kv0 t ih =>
      obtain ⟨k0, v0⟩ := kv0
      by_cases h : k0 = q
      · simp [fieldsLookup, h] at hm
      · rcases List.mem_cons.mp hkv with heq | hmem
        · subst heq
          exact h
        · exact ih (by simpa [fieldsLookup, h] using hm) hmem

theorem fieldsLookup_insertAll_not_mem :
    ∀ (l base : Fields) (q : String), (∀ kv ∈ l, kv.1 ≠ q) →
      fieldsLookup (insertAll base l) q = fieldsLookup base q := by
  intro l
  induction l with
  | nil => intro base q _; rfl
  | cons kv t ih =>
      intro base q h
      show fieldsLookup (insertAll (fieldsInsert base kv.1 kv.2) t) q = _
      rw [ih _ q (fun p hp => h p (List.mem_cons_of_mem kv hp))]
      exact fieldsLookup_insert_ne _ _ _ _
        (fun he => (h kv (List.mem_cons_self kv t)) he.symm)

theorem fieldsLookup_insertAll_mem :
    ∀ (l base : Fields) (q : String) (v : GoVal), keysNodup l = true →
      fieldsLookup l q = some v → fieldsLookup (insertAll base l) q = some v := by
  intro l
  induction l with
  | nil => intro base q v _ h; simp [fieldsLookup] at h
  | cons kv t ih =>
      intro base q v hnd hl
      obtain ⟨k0, v0⟩ := kv
      have hnd' := hnd
      simp only [keysNodup, Bool.and_eq_true, Option.isNone_iff_eq_none] at hnd'
      obtain ⟨hnd1, hnd2⟩ := hnd'
      by_cases hq : k0 = q
      · subst hq
        have hv : v0 = v := by simpa [fieldsLookup] using hl
        subst hv
        show fieldsLookup (insertAll (fieldsInsert base k0 v0) t) k0 = some v0
        rw [fieldsLookup_insertAll_not_mem t _ k0
          (fieldsLookup_none_not_mem t k0 hnd1)]
        exact fieldsLookup_insert_self _ _ _
      · have hl' : fieldsLookup t q = some v := by simpa [fieldsLookup, hq] using hl
        show fieldsLookup (insertAll (fieldsInsert base k0 v0) t) q = some v
        exact ih _ q v hnd2 hl'

/-! ## Parser claim theorems -/

theorem regexGroupStep_raw (schema : Schema) (pt : String → Option GoTime)
    (e : LogEntry) (nv : String × String) :
    (regexGroupStep schema pt e nv).raw = e.raw := by
  simp only [regexGroupStep]
  cases pt nv.2 <;> cases goAtoi nv.2 <;>
    simp [apply_ite (LogEntry.raw)]

theorem foldl_regexGroupStep_raw (schema : Schema) (pt : String → Option GoTime) :
    ∀ (gs : List (String × String)) (e : LogEntry),
      (gs.foldl (regexGroupStep schema pt) e).raw = e.raw := by
  intro gs
  induction gs with
  | nil => intro e; rfl
  | cons g t ih =>
      intro e
      rw [List.foldl_cons, ih, regexGroupStep_raw]

/-- C3 (amended): all three strategies are total (they always return an
entry, never an error) and preserve the raw text; the regex strategy
degrades to a single `msg` field holding the whole line when the pattern
is missing or fails to match; the JSON and logfmt strategies leave the
field map empty (without a `msg` key) on invalid or unmatched input. -/
theorem parser_contract_amended (schema : Schema) (pt : String → Option GoTime)
    (re : Option (String → Option (List (String × String))))
    (line source : String) :
    (jsonParse schema pt line source).raw = line ∧
    (logfmtParse schema pt line source).raw = line ∧
    (regexParse schema pt re line source).raw = line ∧
    (re = none → (regexParse schema pt re line source).fields = [("msg", GoVal.str line)]) ∧
    (∀ f, re = some f → f line = none →
      (regexParse schema pt re line source).fields = [("msg", GoVal.str line)]) ∧
    (jsonUnmarshal line = none → (jsonParse schema pt line source).fields = []) ∧
    (splitLogfmt line = [] → (logfmtParse schema pt line source).fields = []) := by
  refine ⟨?_, ?_, ?_, ?_, ?_, ?_, ?_⟩
  · simp only [jsonParse]
    cases findInnerPayload ((jsonUnmarshal line).getD []) ["log", "msg", "message"] <;>
      cases pt (getStringPaths ((jsonUnmarshal line).getD []) ["ts", "time", "timestamp"]) <;>
        simp [apply_ite (LogEntry.raw)]
  · simp only [logfmtParse]
    cases pt (pick (splitLogfmt line) ["ts", "time", "timestamp"]) <;>
      simp [apply_ite (LogEntry.raw)]
  · simp only [regexParse]
    cases re with
    | none => rfl
    | some f =>
        show (match f line with
              | none =>
                  ({ raw := line, fields := [("msg", GoVal.str line)], timestamp := none,
                     level := "", source := source, formatName := schema.formatName,
                     schemaVer := "" } : LogEntry)
              | some groups =>
                  List.foldl (regexGroupStep schema pt)
                    { raw := line, fields := [], timestamp := none, level := "",
                      source := source, formatName := schema.formatName, schemaVer := "" }
                    groups).raw = line
        cases f line with
        | none => rfl
        | some gs => rw [foldl_regexGroupStep_raw]
  · intro h
    subst h
    rfl
  · intro f h hf
    subst h
    show (match f line with
          | none =>
              ({ raw := line, fields := [("msg", GoVal.str line)], timestamp := none,
                 level := "", source := source, formatName := schema.formatName,
                 schemaVer := "" } : LogEntry)
          | some groups =>
              List.foldl (regexGroupStep schema pt)
                { raw := line, fields := [], timestamp := none, level := "",
                  source := source, formatName := schema.formatName, schemaVer := "" }
                groups).fields = [("msg", GoVal.str line)]
    rw [hf]
  · intro hmn
    have h0 : findInnerPayload [] ["log", "msg", "message"] = none := rfl
    simp only [jsonParse, hmn, Option.getD_none, h0]
    cases pt (getStringPaths [] ["ts", "time", "timestamp"]) <;>
      simp [apply_ite (LogEntry.fields)]
  · intro hsp
    simp only [logfmtParse, hsp, List.map_nil]
    cases pt (pick [] ["ts", "time", "timestamp"]) <;>
      simp [apply_ite (LogEntry.fields)]

/-- C3 counterexample: on the invalid input `not json` the JSON strategy
returns an entry with an empty field map — there is no `msg` key mapped
to the whole line, contrary to the claim's minimum-contract for all
three strategies. -/
theorem parser_contract_counterexample :
    (jsonParse jsonSchema (fun _ => none) "not json" "stdin").raw = "not json" ∧
    (jsonParse jsonSchema (fun _ => none) "not json" "stdin").fields = [] ∧
    fieldsLookup (jsonParse jsonSchema (fun _ => none) "not json" "stdin").fields "msg" =
      none :=
  ⟨rfl, rfl, rfl⟩

/-- Witness for the amended C3 on concrete inputs: raw preserved by all
three strategies; the regex strategy with a failed compile and with a
non-matching pattern yields `msg = line`; the JSON strategy on invalid
JSON and the logfmt strategy on a line without `key=value` pairs yield
empty field maps. -/
theorem parser_contract_amended_witness :
    (jsonParse jsonSchema (fun _ => none) "x" "s").raw = "x" ∧
    (regexParse unknownSchema (fun _ => none) none "hello" "s").fields =
      [("msg", GoVal.str "hello")] ∧
    (regexParse unknownSchema (fun _ => none) (some (fun _ => none)) "hello" "s").fields =
      [("msg", GoVal.str "hello")] ∧
    (jsonParse jsonSchema (fun _ => none) "not json" "s").fields = [] ∧
    (logfmtParse logfmtSchema (fun _ => none) "hello" "s").fields = [] :=
  ⟨(parser_contract_amended jsonSchema (fun _ => none) none "x" "s").1,
   (parser_contract_amended unknownSchema (fun _ => none) none "hello" "s").2.2.2.1 rfl,
   (parser_contract_amended unknownSchema (fun _ => none) (some (fun _ => none)) "hello" "s").2.2.2.2.1
     (fun _ => none) rfl rfl,
   (parser_contract_amended jsonSchema (fun _ => none) none "not json" "s").2.2.2.2.2.1 rfl,
   (parser_contract_amended logfmtSchema (fun _ => none) none "hello" "s").2.2.2.2.2.2 rfl⟩

/-- C4 (amended): when a `log`/`msg`/`message` field (in that priority
order) holds a string that is itself a JSON object, its keys are merged
into the entry fields with the INNER keys winning on conflict (the merge
is exactly `insertAll m inner`); outer keys without an inner counterpart
— including the wrapper field itself — are retained. -/
theorem json_inner_merge_amended (schema : Schema) (pt : String → Option GoTime)
    (line source : String) (m inner : Fields)
    (hm : jsonUnmarshal line = some m)
    (hinner : findInnerPayload m ["log", "msg", "message"] = some inner)
    (hnd : keysNodup inner = true) :
    (jsonParse schema pt line source).fields = insertAll m inner ∧
    (∀ k v, fieldsLookup inner k = some v →
      fieldsLookup (jsonParse schema pt line source).fields k = some v) ∧
    (∀ k v, fieldsLookup inner k = none → fieldsLookup m k = some v →
      fieldsLookup (jsonParse schema pt line source).fields k = some v) := by
  have hfields : (jsonParse schema pt line source).fields = insertAll m inner := by
    simp only [jsonParse, hm, Option.getD_some, hinner]
    cases pt (getStringPaths m ["ts", "time", "timestamp"]) <;>
      simp [apply_ite (LogEntry.fields)]
  refine ⟨hfields, ?_, ?_⟩
  · intro k v hk
    rw [hfields]
    exact fieldsLookup_insertAll_mem inner m k v hnd hk
  · intro k v hki hkm
    rw [hfields]
    rw [fieldsLookup_insertAll_not_mem inner m k (fieldsLookup_none_not_mem inner k hki)]
    exact hkm

/-- C4 counterexample: on
`{"a":"outer","log":"{\"a\":\"inner\"}"}` the merged field `a` holds the
INNER value (`"inner"`), not the outer one, so "outer keys win on
conflict" is false; the wrapper field `log` is indeed retained. -/
theorem json_inner_merge_counterexample :
    fieldsLookup (jsonParse jsonSchema (fun _ => none)
      "\x7b\"a\":\"outer\",\"log\":\"\x7b\\\"a\\\":\\\"inner\\\"\x7d\"\x7d" "src").fields "a" =
      some (GoVal.str "inner") ∧
    fieldsLookup (jsonParse jsonSchema (fun _ => none)
      "\x7b\"a\":\"outer\",\"log\":\"\x7b\\\"a\\\":\\\"inner\\\"\x7d\"\x7d" "src").fields "log" =
      some (GoVal.str "\x7b\"a\":\"inner\"\x7d") ∧
    GoVal.str "inner" ≠ GoVal.str "outer" :=
  ⟨rfl, rfl, fun h => by injection h with h2; exact absurd h2 (by decide)⟩

/-- Witness for the amended C4 on a concrete wrapped line: an inner-only
key is visible in the merged fields. -/
theorem json_inner_merge_amended_witness :
    fieldsLookup (jsonParse jsonSchema (fun _ => none)
      "\x7b\"a\":\"outer\",\"log\":\"\x7b\\\"b\\\":\\\"inb\\\"\x7d\"\x7d" "src").fields "b" =
      some (GoVal.str "inb") :=
  (json_inner_merge_amended jsonSchema (fun _ => none)
    "\x7b\"a\":\"outer\",\"log\":\"\x7b\\\"b\\\":\\\"inb\\\"\x7d\"\x7d" "src"
    [("a", GoVal.str "outer"), ("log", GoVal.str "\x7b\"b\":\"inb\"\x7d")]
    [("b", GoVal.str "inb")] rfl rfl rfl).2.1 "b" (GoVal.str "inb") rfl

/-- C5 counterexample: on
`{"level":"info","msg":"{\"level\":\"error\"}"}` both the inner payload
and the outer object provide a level; the claim says the inner merged
payload wins, but the parser's final outer extraction overrides it: the
entry level is `INFO` (outer), not `ERROR` (inner). -/
theorem json_inner_precedence_counterexample :
    (jsonParse jsonSchema (fun _ => none)
      "\x7b\"level\":\"info\",\"msg\":\"\x7b\\\"level\\\":\\\"error\\\"\x7d\"\x7d" "src").level =
      "INFO" ∧
    ("INFO" : String) ≠ "ERROR" :=
  ⟨rfl, by decide⟩

/-- C5 (amended): the parser first takes timestamp/level from the inner
merged payload, but the OUTER object's values override them whenever the
outer object provides them (for timestamps, whenever the outer value
parses); the inner values survive only when the outer object lacks those
keys, or — for the timestamp — when the outer value fails to parse. -/
theorem json_inner_precedence_amended (schema : Schema)
    (pt : String → Option GoTime) (line source : String) (m : Fields)
    (hm : jsonUnmarshal line = some m) :
    (goToUpper (getStringPaths m ["level", "lvl", "severity"]) ≠ "" →
      (jsonParse schema pt line source).level =
        normalizeLevel schema (goToUpper (getStringPaths m ["level", "lvl", "severity"]))) ∧
    (∀ t, getStringPaths m ["ts", "time", "timestamp"] ≠ "" →
      pt (getStringPaths m ["ts", "time", "timestamp"]) = some t →
      (jsonParse schema pt line source).timestamp = some t) ∧
    (∀ inner, findInnerPayload m ["log", "msg", "message"] = some inner →
      goToUpper (getStringPaths m ["level", "lvl", "severity"]) = "" →
      goToUpper (getStringPaths inner ["level", "lvl", "severity"]) ≠ "" →
      (jsonParse schema pt line source).level =
        normalizeLevel schema (goToUpper (getStringPaths inner ["level", "lvl", "severity"]))) ∧
    (∀ inner t, findInnerPayload m ["log", "msg", "message"] = some inner →
      (getStringPaths m ["ts", "time", "timestamp"] = "" ∨
        pt (getStringPaths m ["ts", "time", "timestamp"]) = none) →
      getStringPaths inner ["ts", "time", "timestamp"] ≠ "" →
      pt (getStringPaths inner ["ts", "time", "timestamp"]) = some t →
      (jsonParse schema pt line source).timestamp = some t) := by
  refine ⟨?_, ?_, ?_, ?_⟩
  · intro hlvl
    simp only [jsonParse, hm, Option.getD_some]
    rw [if_pos hlvl]
  · intro t hts hpt
    simp only [jsonParse, hm, Option.getD_some]
    rw [if_pos hts, hpt]
    split <;> rfl
  · intro inner hinner houter hil
    simp only [jsonParse, hm, Option.getD_some, hinner]
    rw [houter]
    rw [if_neg (by simp : ¬("" : String) ≠ "")]
    cases pt (getStringPaths m ["ts", "time", "timestamp"]) <;>
      simp [apply_ite (LogEntry.level), hil]
  · intro inner t hinner houter hits hipt
    simp only [jsonParse, hm, Option.getD_some, hinner]
    rcases houter with h | h
    · simp [h, apply_ite (LogEntry.timestamp), hits, hipt]
    · simp [h, apply_ite (LogEntry.timestamp), hits, hipt]

/-- Witness for the amended C5: outer level present on a concrete line
(conjunct 1), and a concrete wrapped line where only the inner payload
has a level (conjunct 3). -/
theorem json_inner_precedence_amended_witness :
    (jsonParse jsonSchema (fun _ => none) "\x7b\"level\":\"warn\"\x7d" "s").level =
      normalizeLevel jsonSchema
        (goToUpper (getStringPaths [("level", GoVal.str "warn")] ["level", "lvl", "severity"])) ∧
    (jsonParse jsonSchema (fun _ => none)
      "\x7b\"log\":\"\x7b\\\"level\\\":\\\"error\\\"\x7d\"\x7d" "s").level =
      normalizeLevel jsonSchema
        (goToUpper (getStringPaths [("level", GoVal.str "error")] ["level", "lvl", "severity"])) :=
  ⟨(json_inner_precedence_amended jsonSchema (fun _ => none) "\x7b\"level\":\"warn\"\x7d" "s"
      [("level", GoVal.str "warn")] rfl).1 (by decide),
   (json_inner_precedence_amended jsonSchema (fun _ => none)
      "\x7b\"log\":\"\x7b\\\"level\\\":\\\"error\\\"\x7d\"\x7d" "s"
      [("log", GoVal.str "\x7b\"level\":\"error\"\x7d")] rfl).2.2.1
      [("level", GoVal.str "error")] rfl rfl (by decide)⟩
